import Mathlib

set_option maxRecDepth 10000

/-!
Verification development for the Identify-Halo-CME-Events repository.

The repository is a set of pandas/numpy scripts.  We shallowly embed the
algorithmic parts over exact rationals:

* a pandas float cell is `Option ℚ` (`none` = NaN/missing) inside the cleaning
  pipeline of `cleanData.py`, where no division occurs, so no infinities can
  arise;
* in `parameterised.py` divisions occur, so there a cell is a `PFloat`
  (an IEEE-754-style value: NaN, +inf, -inf, or a finite rational);
* decimal literals of the scripts (`-999.99`, `1e5`, ...) are read as exact
  rationals;
* a DataFrame is a list of fixed-schema records (the CSV schema of
  `csv_1.py`/`cleanData.py` always materialises every column, filling absent
  ones with NaN), and pandas whole-frame operations become list traversals.

Pandas semantics used (and encoded below):
* comparisons against NaN are `False`, so boolean row masks silently drop
  rows with missing inputs;
* `Series.clip` leaves NaN unchanged;
* `sort_values` with the default `kind='quicksort'` guarantees only a
  time-ascending permutation of the rows: pandas documents that only
  mergesort/stable are stable, so the relative order of rows with equal
  timestamps is unspecified.  The sort stage's contract is therefore the
  relation `timeSorted` (any time-ascending permutation); the executable
  pipeline instantiates it with a stable insertion sort, one admissible
  implementation — and everywhere the pipeline itself is evaluated or proved
  about below, timestamps are pairwise distinct, where the sorted permutation
  is unique and all admissible implementations agree.
  `drop_duplicates(subset=['time'])` keeps the first occurrence of the frame
  it is given;
* `interpolate(method='time', limit=5)` fills, per run of consecutive NaNs,
  only the first 5 of them (forward limit direction), using time-weighted
  linear interpolation between the surrounding valid values; leading NaNs are
  never filled; trailing NaNs are filled with the last valid value;
* `rolling(window=30).mean()` is NaN until 30 observations are present in the
  window (the default `min_periods` equals the window size);
* column assignment `df['c'] = ...` mutates the caller's frame, which we model
  by returning the updated frame as part of the function's result.
-/

namespace HaloCME

/-- An IEEE-754-style scalar as produced by pandas arithmetic in
`parameterised.py`: NaN (also the "missing" marker), the two infinities, or a
finite value (modelled as an exact rational). -/
inductive PFloat where
  | nan : PFloat
  | inf : PFloat
  | ninf : PFloat
  | fin : ℚ → PFloat
deriving DecidableEq, Repr

/-- IEEE-style division as performed by pandas on float columns: NaN
propagates; a finite nonzero numerator divided by (positive) zero gives a
signed infinity; 0/0 gives NaN. -/
def pdiv : PFloat → PFloat → PFloat
  | PFloat.nan, _ => PFloat.nan
  | _, PFloat.nan => PFloat.nan
  | PFloat.fin a, PFloat.fin b =>
      if b = 0 then
        (if a = 0 then PFloat.nan else if 0 < a then PFloat.inf else PFloat.ninf)
      else PFloat.fin (a / b)
  | PFloat.inf, PFloat.fin b => if b < 0 then PFloat.ninf else PFloat.inf
  | PFloat.ninf, PFloat.fin b => if b < 0 then PFloat.inf else PFloat.ninf
  | PFloat.fin _, PFloat.inf => PFloat.fin 0
  | PFloat.fin _, PFloat.ninf => PFloat.fin 0
  | _, PFloat.inf => PFloat.nan
  | _, PFloat.ninf => PFloat.nan

/-- IEEE-style multiplication (only the cases reachable from the scripts
matter: finite*finite, and infinity scaled by a finite constant). -/
def pmul : PFloat → PFloat → PFloat
  | PFloat.nan, _ => PFloat.nan
  | _, PFloat.nan => PFloat.nan
  | PFloat.fin a, PFloat.fin b => PFloat.fin (a * b)
  | PFloat.inf, PFloat.fin b =>
      if b = 0 then PFloat.nan else if 0 < b then PFloat.inf else PFloat.ninf
  | PFloat.fin a, PFloat.inf =>
      if a = 0 then PFloat.nan else if 0 < a then PFloat.inf else PFloat.ninf
  | PFloat.ninf, PFloat.fin b =>
      if b = 0 then PFloat.nan else if 0 < b then PFloat.ninf else PFloat.inf
  | PFloat.fin a, PFloat.ninf =>
      if a = 0 then PFloat.nan else if 0 < a then PFloat.ninf else PFloat.inf
  | PFloat.inf, PFloat.inf => PFloat.inf
  | PFloat.inf, PFloat.ninf => PFloat.ninf
  | PFloat.ninf, PFloat.inf => PFloat.ninf
  | PFloat.ninf, PFloat.ninf => PFloat.inf

/-- IEEE-style strict greater-than: any comparison involving NaN is `false`;
+inf is greater than every finite value. -/
def pgt : PFloat → PFloat → Bool
  | PFloat.nan, _ => false
  | _, PFloat.nan => false
  | PFloat.fin a, PFloat.fin b => decide (b < a)
  | PFloat.inf, PFloat.inf => false
  | PFloat.inf, _ => true
  | _, PFloat.inf => false
  | PFloat.ninf, _ => false
  | PFloat.fin _, PFloat.ninf => true

/-- `parameterised.py`, line 37:
`df['alpha_ratio'] = (df['alpha_density'] / df['proton_density']) * 100`.
There is no guard of any kind on the denominator. -/
def alpha_ratio (alpha_density proton_density : PFloat) : PFloat :=
  pmul (pdiv alpha_density proton_density) (PFloat.fin 100)

end HaloCME

/-- Quick sanity checks on the PFloat embedding (missing denominator
propagates, zero denominator produces an infinity). -/
theorem HaloCME.pfloat_sanity :
    HaloCME.alpha_ratio (HaloCME.PFloat.fin 1) HaloCME.PFloat.nan = HaloCME.PFloat.nan ∧
    HaloCME.alpha_ratio (HaloCME.PFloat.fin 1) (HaloCME.PFloat.fin 0) = HaloCME.PFloat.inf := by
  constructor <;> rfl

namespace HaloCME

/-- One row of the SWIS CSV produced by `csv_1.py` / consumed by
`cleanData.py: clean_swis_data`.  Every science column of the schema is
present (the converter fills absent variables with NaN); each cell is a
rational or missing. -/
structure Sample where
  time : ℚ
  proton_density : Option ℚ
  numden_p_uncer : Option ℚ
  proton_bulk_speed : Option ℚ
  bulk_p_uncer : Option ℚ
  proton_xvelocity : Option ℚ
  proton_yvelocity : Option ℚ
  proton_zvelocity : Option ℚ
  proton_thermal : Option ℚ
  thermal_p_uncer : Option ℚ
  alpha_density : Option ℚ
  numden_a_uncer : Option ℚ
  alpha_bulk_speed : Option ℚ
  bulk_a_uncer : Option ℚ
  alpha_thermal : Option ℚ
  thermal_a_uncer : Option ℚ
  spacecraft_xpos : Option ℚ
  spacecraft_ypos : Option ℚ
  spacecraft_zpos : Option ℚ
deriving DecidableEq, Repr

/-- `cleanData.py`, line 82: `fill_values = [-1e31, -9999, -999.99, 999.99, 9999]`,
read as exact rationals. -/
def fill_values : List ℚ := [-(10 : ℚ) ^ 31, -9999, -(99999 : ℚ) / 100, (99999 : ℚ) / 100, 9999]

/-- `df.replace(fill_values, np.nan)` on one cell: a sentinel value becomes
missing, NaN stays NaN. -/
def replaceFill (v : Option ℚ) : Option ℚ :=
  v.bind (fun q => if q ∈ fill_values then none else some q)

/-- Stage 1 of `clean_swis_data` on one row: `df.replace(fill_values, np.nan)`
applies to every (numeric) column; the datetime `time` column is unaffected. -/
def sanitizeSample (s : Sample) : Sample :=
  { time := s.time
    proton_density := replaceFill s.proton_density
    numden_p_uncer := replaceFill s.numden_p_uncer
    proton_bulk_speed := replaceFill s.proton_bulk_speed
    bulk_p_uncer := replaceFill s.bulk_p_uncer
    proton_xvelocity := replaceFill s.proton_xvelocity
    proton_yvelocity := replaceFill s.proton_yvelocity
    proton_zvelocity := replaceFill s.proton_zvelocity
    proton_thermal := replaceFill s.proton_thermal
    thermal_p_uncer := replaceFill s.thermal_p_uncer
    alpha_density := replaceFill s.alpha_density
    numden_a_uncer := replaceFill s.numden_a_uncer
    alpha_bulk_speed := replaceFill s.alpha_bulk_speed
    bulk_a_uncer := replaceFill s.bulk_a_uncer
    alpha_thermal := replaceFill s.alpha_thermal
    thermal_a_uncer := replaceFill s.thermal_a_uncer
    spacecraft_xpos := replaceFill s.spacecraft_xpos
    spacecraft_ypos := replaceFill s.spacecraft_ypos
    spacecraft_zpos := replaceFill s.spacecraft_zpos }

def sanitizeStage (df : List Sample) : List Sample := df.map sanitizeSample

/-- `Series.clip(lower=lo, upper=hi)` on a present value. -/
def clipQ (lo hi x : ℚ) : ℚ := min (max x lo) hi

/-- Stage 2 of `clean_swis_data` (lines 87-94): clip the two densities to
[0, 100] and the two thermal speeds to [0, 1e5]; `clip` leaves NaN alone;
no other column is touched. -/
def rangeSample (s : Sample) : Sample :=
  { s with
    proton_density := s.proton_density.map (clipQ 0 100)
    alpha_density := s.alpha_density.map (clipQ 0 100)
    proton_thermal := s.proton_thermal.map (clipQ 0 100000)
    alpha_thermal := s.alpha_thermal.map (clipQ 0 100000) }

def rangeStage (df : List Sample) : List Sample := df.map rangeSample

/-- The row-keeping condition of lines 98-101,
`np.abs(sqrt(vx^2+vy^2+vz^2) - proton_bulk_speed) < 100`, rewritten without
the square root: for S = vx^2+vy^2+vz^2 >= 0,
|sqrt S - b| < 100  iff  (-100 < b and S < (b+100)^2) and (b < 100 or (b-100)^2 < S).
(The equivalence is proved in `kinematicKeep_iff_sqrt` below.) -/
def kinematicKeep (vx vy vz b : ℚ) : Bool :=
  let S := vx ^ 2 + vy ^ 2 + vz ^ 2
  (decide (-100 < b) && decide (S < (b + 100) ^ 2)) &&
    (decide (b < 100) || decide ((b - 100) ^ 2 < S))

/-- The boolean mask `np.abs(speed_mag - df['proton_bulk_speed']) < 100`:
if any of the four inputs is NaN the comparison is False, so the row is
dropped. -/
def kinematicMask (s : Sample) : Bool :=
  match s.proton_xvelocity, s.proton_yvelocity, s.proton_zvelocity, s.proton_bulk_speed with
  | some vx, some vy, some vz, some b => kinematicKeep vx vy vz b
  | _, _, _, _ => false

/-- Stage "velocity validation" of `clean_swis_data` (lines 97-101); the
velocity columns are always in the schema, so the `if all(...)` guard holds. -/
def kinematicStage (df : List Sample) : List Sample := df.filter kinematicMask

/-- The contract of `df.sort_values('time')` with its default
`kind='quicksort'` (line 104): the output is some permutation of the input
rows, ascending in time.  pandas documents that only mergesort/stable are
stable, so the relative order of rows with equal timestamps is unspecified:
any `out` satisfying this relation is an admissible result of the sort
stage. -/
def timeSorted (df out : List Sample) : Prop :=
  out.Perm df ∧ out.Pairwise (fun a b => a.time ≤ b.time)

/-- Insertion step of `isortByTime`: place the row after every row with a
smaller-or-equal time, so rows with equal times keep their arrival order. -/
def insertS (a : Sample) : List Sample → List Sample
  | [] => [a]
  | b :: l => if a.time ≤ b.time then a :: b :: l else b :: insertS a l

/-- One admissible implementation of the `timeSorted` contract: a stable
insertion sort by timestamp.  The executable pipeline uses this instance;
every theorem or evaluation of the pipeline below concerns frames with
pairwise distinct timestamps, where the sorted permutation is unique and
every admissible implementation returns the same list.  The tie order on
duplicate timestamps, which the program leaves unspecified, is treated
through `timeSorted` itself (claim C6). -/
def isortByTime : List Sample → List Sample
  | [] => []
  | a :: l => insertS a (isortByTime l)

/-- `df.drop_duplicates(subset=['time'])` (line 105): keep a row iff its
timestamp has not appeared earlier in the frame (`keep='first'`). -/
def dedupAux (seen : List ℚ) : List Sample → List Sample
  | [] => []
  | s :: rest =>
      if s.time ∈ seen then dedupAux seen rest
      else s :: dedupAux (s.time :: seen) rest

def dedupByTime (df : List Sample) : List Sample := dedupAux [] df

/-- Stage 3 of `clean_swis_data` (lines 104-105): sort ascending by time, then
drop duplicate timestamps keeping the first occurrence. -/
def sortDedup (df : List Sample) : List Sample := dedupByTime (isortByTime df)

/-- One `(param, uncert)` pair of stage 4 (lines 108-112):
`df.loc[df[uncert] > 0.5 * df[param].abs(), param] = np.nan`.
The comparison is False when either cell is NaN. -/
def uncertApply (p u : Option ℚ) : Option ℚ :=
  match p, u with
  | some pv, some uv => if (1 : ℚ) / 2 * |pv| < uv then none else some pv
  | _, _ => p

/-- Stage 4 on one row: the three (param, uncert) pairs of the source. -/
def uncertSample (s : Sample) : Sample :=
  { s with
    proton_density := uncertApply s.proton_density s.numden_p_uncer
    proton_bulk_speed := uncertApply s.proton_bulk_speed s.bulk_p_uncer
    alpha_density := uncertApply s.alpha_density s.numden_a_uncer }

def uncertStage (df : List Sample) : List Sample := df.map uncertSample

/-- One component of `df[pos_cols].diff().abs()`: absolute difference with the
previous row's cell, NaN if either cell is NaN. -/
def odiffabs (a b : Option ℚ) : Option ℚ :=
  match a, b with
  | some x, some y => some (|y - x|)
  | _, _ => none

/-- `d < 1000` on a diff cell; False on NaN. -/
def oltThousand (d : Option ℚ) : Bool :=
  match d with
  | some x => decide (x < 1000)
  | none => false

/-- The row mask of stage 5 (lines 114-118):
`(pos_diff < 1000).all(axis=1) | pos_diff.isna().all(axis=1)`.
`prev` is the preceding row of the frame entering this stage (`diff()` works on
that frame, whether or not the previous row itself survives the mask); for the
first row all diffs are NaN, so the second disjunct holds. -/
def spatialKeep (prev : Option Sample) (cur : Sample) : Bool :=
  match prev with
  | none => true
  | some p =>
      let dx := odiffabs p.spacecraft_xpos cur.spacecraft_xpos
      let dy := odiffabs p.spacecraft_ypos cur.spacecraft_ypos
      let dz := odiffabs p.spacecraft_zpos cur.spacecraft_zpos
      (oltThousand dx && oltThousand dy && oltThousand dz) ||
        (dx.isNone && dy.isNone && dz.isNone)

/-- Stage 5: pair every row with its predecessor in the incoming frame and
keep the rows whose mask holds. -/
def spatialStage (df : List Sample) : List Sample :=
  ((df.zip (none :: df.map some)).filter (fun p => spatialKeep p.2 p.1)).map (fun p => p.1)

/-- The last valid (time, value) at an index `< i` of the column, if any. -/
def findPrevValid (tvs : List (ℚ × Option ℚ)) (i : ℕ) : Option (ℚ × ℚ) :=
  ((tvs.take i).reverse).findSome? (fun tv => tv.2.map (fun v => (tv.1, v)))

/-- The first valid (time, value) at an index `> i` of the column, if any. -/
def findNextValid (tvs : List (ℚ × Option ℚ)) (i : ℕ) : Option (ℚ × ℚ) :=
  (tvs.drop (i + 1)).findSome? (fun tv => tv.2.map (fun v => (tv.1, v)))

/-- Length of the run of consecutive missing cells ending at index `i`
(1-based position of `i` inside its missing run when cell `i` is missing). -/
def missRun (tvs : List (ℚ × Option ℚ)) (i : ℕ) : ℕ :=
  (((tvs.take (i + 1)).reverse).takeWhile (fun tv => tv.2.isNone)).length

/-- `df.interpolate(method='time', limit=5)` at one cell (pandas semantics):
a present value is kept; a missing value is filled only if some earlier cell
of the column is valid (no backward fill) and the cell is among the first 5
missing cells of its consecutive missing run (`limit=5`, forward direction).
The filled value is the time-weighted linear interpolation between the
surrounding valid cells, or the last valid value when no later valid cell
exists. -/
def interpAt (tvs : List (ℚ × Option ℚ)) (i : ℕ) (t : ℚ) (v : Option ℚ) : Option ℚ :=
  match v with
  | some x => some x
  | none =>
      match findPrevValid tvs i with
      | none => none
      | some (tp, vp) =>
          if 5 < missRun tvs i then none
          else
            match findNextValid tvs i with
            | some (tn, vn) => some (vp + (vn - vp) * (t - tp) / (tn - tp))
            | none => some vp

/-- Stage 6 of `clean_swis_data` on one column. -/
def interpSeries (tvs : List (ℚ × Option ℚ)) : List (ℚ × Option ℚ) :=
  tvs.enum.map (fun p => (p.2.1, interpAt tvs p.1 p.2.1 p.2.2))

/-- One interpolated cell of a given column of the frame. -/
def interpField (df : List Sample) (f : Sample → Option ℚ) (i : ℕ) (s : Sample) : Option ℚ :=
  interpAt (df.map (fun x => (x.time, f x))) i s.time (f s)

/-- Stage 6 of `clean_swis_data` (lines 121-122): time-weighted interpolation
with `limit=5`, independently per column. -/
def temporalInterp (df : List Sample) : List Sample :=
  df.enum.map (fun p =>
    { time := p.2.time
      proton_density := interpField df (fun s => s.proton_density) p.1 p.2
      numden_p_uncer := interpField df (fun s => s.numden_p_uncer) p.1 p.2
      proton_bulk_speed := interpField df (fun s => s.proton_bulk_speed) p.1 p.2
      bulk_p_uncer := interpField df (fun s => s.bulk_p_uncer) p.1 p.2
      proton_xvelocity := interpField df (fun s => s.proton_xvelocity) p.1 p.2
      proton_yvelocity := interpField df (fun s => s.proton_yvelocity) p.1 p.2
      proton_zvelocity := interpField df (fun s => s.proton_zvelocity) p.1 p.2
      proton_thermal := interpField df (fun s => s.proton_thermal) p.1 p.2
      thermal_p_uncer := interpField df (fun s => s.thermal_p_uncer) p.1 p.2
      alpha_density := interpField df (fun s => s.alpha_density) p.1 p.2
      numden_a_uncer := interpField df (fun s => s.numden_a_uncer) p.1 p.2
      alpha_bulk_speed := interpField df (fun s => s.alpha_bulk_speed) p.1 p.2
      bulk_a_uncer := interpField df (fun s => s.bulk_a_uncer) p.1 p.2
      alpha_thermal := interpField df (fun s => s.alpha_thermal) p.1 p.2
      thermal_a_uncer := interpField df (fun s => s.thermal_a_uncer) p.1 p.2
      spacecraft_xpos := interpField df (fun s => s.spacecraft_xpos) p.1 p.2
      spacecraft_ypos := interpField df (fun s => s.spacecraft_ypos) p.1 p.2
      spacecraft_zpos := interpField df (fun s => s.spacecraft_zpos) p.1 p.2 })

/-- `cleanData.py: clean_swis_data`, lines 81-122: the full cleaning
pipeline in source order (sentinel replacement, physics clipping, kinematic
mask, sort + dedup, uncertainty nulling, spatial-jump mask, gap-limited
interpolation). -/
def clean_swis_data (df : List Sample) : List Sample :=
  temporalInterp (spatialStage (uncertStage (sortDedup (kinematicStage (rangeStage (sanitizeStage df))))))

end HaloCME

namespace HaloCME

/-- One row of the frame consumed by `output.py: detect_halo_cme` (indexed by
`time`; the three science columns of its `__main__` loader, plus the three
moving-average columns that `detect_halo_cme` itself writes into the frame). -/
structure BlkRow where
  time : ℚ
  proton_density : Option ℚ
  proton_bulk_speed : Option ℚ
  alpha_density : Option ℚ
  density_ma : Option ℚ
  speed_ma : Option ℚ
  alpha_ma : Option ℚ
deriving DecidableEq, Repr

/-- The `thresholds` dict of `detect_halo_cme` (defaults of lines 41-46). -/
structure Thresholds where
  speed : ℚ := 450
  density_jump : ℚ := 13 / 10
  alpha_ratio : ℚ := 3 / 20
  min_duration : ℕ := 1
deriving DecidableEq, Repr

/-- `Series.rolling(window=30).mean()` at index `i`: the trailing window of the
last 30 cells including `i`; NaN unless the window holds 30 rows all of whose
cells are present (`min_periods` defaults to the window size and NaN cells do
not count as observations). -/
def rollingMean30 (vals : List (Option ℚ)) (i : ℕ) : Option ℚ :=
  let w := (vals.take (i + 1)).reverse.take 30
  if 30 ≤ i + 1 ∧ w.all (fun v => v.isSome) then some ((w.filterMap id).sum / 30)
  else none

/-- Lines 52-54 of `output.py`: write the three 30-point moving-average
columns into the frame. -/
def addMovingAverages (rows : List BlkRow) : List BlkRow :=
  rows.enum.map (fun p =>
    { p.2 with
      density_ma := rollingMean30 (rows.map (fun r => r.proton_density)) p.1
      speed_ma := rollingMean30 (rows.map (fun r => r.proton_bulk_speed)) p.1
      alpha_ma := rollingMean30 (rows.map (fun r => r.alpha_density)) p.1 })

/-- The per-row detection criterion (lines 57-61); every comparison against a
missing cell is False. -/
def cmeCandidate (th : Thresholds) (r : BlkRow) : Bool :=
  (match r.proton_bulk_speed with
   | some v => decide (th.speed < v)
   | none => false) &&
  (match r.proton_density, r.density_ma with
   | some d, some m => decide (m * th.density_jump < d)
   | _, _ => false) &&
  (match r.alpha_density with
   | some a => decide (th.alpha_ratio < a)
   | none => false)

/-- One step of `(cme_candidates != cme_candidates.shift(1)).cumsum()`: the
key stays put when the flag equals the previous row's flag (`prev` is `none`
at the first row, where the comparison against the shifted-in NaN is True). -/
def nextKey (prev : Option Bool) (f : Bool) (k : ℕ) : ℕ :=
  if prev = some f then k else k + 1

/-- `(cme_candidates != cme_candidates.shift(1)).cumsum()`: the running count
of flag changes; the first comparison is against NaN and is always True, so
the keys start at 1 and increase exactly at each flag flip. -/
def shiftNeKeysAux (prev : Option Bool) (k : ℕ) : List Bool → List ℕ
  | [] => []
  | f :: fs => nextKey prev f k :: shiftNeKeysAux (some f) (nextKey prev f k) fs

def shiftNeKeys (fs : List Bool) : List ℕ := shiftNeKeysAux none 0 fs

/-- `groupby` over the filtered frame with the (nondecreasing) change-count
keys: pandas sorts groups by key, which for nondecreasing keys is exactly
grouping consecutive equal keys, rows keeping their frame order. -/
def groupConsecKeys {α : Type} : List (ℕ × α) → List (List α)
  | [] => []
  | [(_, r)] => [[r]]
  | (k, r) :: (k2, r2) :: rest =>
      match groupConsecKeys ((k2, r2) :: rest) with
      | [] => [[r]]
      | g :: gs => if k2 = k then (r :: g) :: gs else [r] :: g :: gs

/-- pandas `Series.max()` over a column slice: NaN cells are skipped. -/
def omax (l : List (Option ℚ)) : Option ℚ := (l.filterMap id).max?

/-- A detected event (lines 67-74). -/
structure CMEEvent where
  start_time : ℚ
  end_time : ℚ
  duration : ℕ
  max_speed : Option ℚ
  max_density : Option ℚ
  max_alpha : Option ℚ
deriving DecidableEq, Repr

def dummyRow : BlkRow := ⟨0, none, none, none, none, none, none⟩

/-- The event record built from one retained group (lines 67-74):
`group.index[0]`, `group.index[-1]`, `len(group)` and column maxima. -/
def mkEvent (g : List BlkRow) : CMEEvent :=
  { start_time := (g.headD dummyRow).time
    end_time := (g.getLastD dummyRow).time
    duration := g.length
    max_speed := omax (g.map (fun r => r.proton_bulk_speed))
    max_density := omax (g.map (fun r => r.proton_density))
    max_alpha := omax (g.map (fun r => r.alpha_density)) }

/-- Lines 63-75 of `output.py` factored over an explicit flag sequence:
key the rows by the change count of the flags, keep the flagged rows, group
them by key, and keep a group as an event iff its length reaches
`min_duration`. -/
def aggregateEvents (rows : List BlkRow) (flags : List Bool) (minDur : ℕ) : List CMEEvent :=
  let pairs := rows.zip flags
  let keyed := pairs.zip (shiftNeKeys (pairs.map (fun p => p.2)))
  let flagged := (keyed.filter (fun p => p.1.2)).map (fun p => (p.2, p.1.1))
  (groupConsecKeys flagged).filterMap
    (fun g => if minDur ≤ g.length then some (mkEvent g) else none)

/-- The summary statistics dict (lines 79-84), built only when at least one
event was retained. -/
structure CMEStats where
  num_events : ℕ
  avg_duration : ℚ
  max_speed : Option ℚ
  max_density : Option ℚ
deriving DecidableEq, Repr

def mkStats (evs : List CMEEvent) : CMEStats :=
  { num_events := evs.length
    avg_duration := ((evs.map (fun e => (e.duration : ℚ))).sum) / evs.length
    max_speed := omax (evs.map (fun e => e.max_speed))
    max_density := omax (evs.map (fun e => e.max_density)) }

/-- The `results` dict: `statistics = none` models the empty dict `{}`. -/
structure CMEResult where
  cme_detected : Bool
  events : List CMEEvent
  statistics : Option CMEStats
deriving DecidableEq, Repr

/-- `output.py: detect_halo_cme` (lines 38-86).  The function writes the three
moving-average columns into the frame it was handed (pandas column assignment
mutates the caller's object), so the final state of that frame is returned as
the second component. -/
def detect_halo_cme (rows : List BlkRow) (th : Thresholds) : CMEResult × List BlkRow :=
  let rows2 := addMovingAverages rows
  let flags := rows2.map (cmeCandidate th)
  if flags.any id then
    let evs := aggregateEvents rows2 flags th.min_duration
    if evs.isEmpty then (⟨false, [], none⟩, rows2)
    else (⟨true, evs, some (mkStats evs)⟩, rows2)
  else (⟨false, [], none⟩, rows2)


end HaloCME

namespace HaloCME

/-- C1 counterexample input: a sample whose `alpha_density` is 1 and whose
`proton_density` is exactly 0 (0 is `≤` every nonnegative epsilon, and is an
attainable cleaned value: the range stage clips negative densities to 0). -/
theorem alpha_ratio_nan_left : ∀ a : PFloat, alpha_ratio a PFloat.nan = PFloat.nan := by
  intro a
  cases a <;> rfl

theorem alpha_ratio_nan_right : ∀ p : PFloat, alpha_ratio PFloat.nan p = PFloat.nan := by
  intro p
  cases p <;> rfl

end HaloCME

/-- C1: counterexample.  The claim says every division with a missing, zero,
or epsilon-small denominator yields a missing result, and in particular that
`alpha_ratio` is missing whenever `proton_density` is missing or `≤` the
epsilon.  But `create_cme_dataset` has no denominator guard at all: at
`alpha_density = 1`, `proton_density = 0` (and 0 is `≤` any nonnegative
epsilon) the pandas quotient is `+inf`, not missing, and it satisfies the
downstream boolean criterion `alpha_ratio > 8`. -/
theorem c1_division_guard_counterexample :
    HaloCME.alpha_ratio (HaloCME.PFloat.fin 1) (HaloCME.PFloat.fin 0) = HaloCME.PFloat.inf ∧
    HaloCME.alpha_ratio (HaloCME.PFloat.fin 1) (HaloCME.PFloat.fin 0) ≠ HaloCME.PFloat.nan ∧
    HaloCME.pgt (HaloCME.alpha_ratio (HaloCME.PFloat.fin 1) (HaloCME.PFloat.fin 0))
      (HaloCME.PFloat.fin 8) = true := by
  refine ⟨rfl, ?_, rfl⟩
  decide

/-- C1: amended.  The ratio is missing whenever either operand is missing
(NaN propagates through the division and the scaling by 100), but there is no
zero/epsilon guard: at a zero denominator with positive numerator the ratio is
`+inf`, which satisfies the downstream flag criterion `alpha_ratio > 8`. -/
theorem c1_division_guard_amended :
    (∀ a : HaloCME.PFloat, HaloCME.alpha_ratio a HaloCME.PFloat.nan = HaloCME.PFloat.nan) ∧
    (∀ p : HaloCME.PFloat, HaloCME.alpha_ratio HaloCME.PFloat.nan p = HaloCME.PFloat.nan) ∧
    HaloCME.alpha_ratio (HaloCME.PFloat.fin 1) (HaloCME.PFloat.fin 0) = HaloCME.PFloat.inf ∧
    HaloCME.pgt (HaloCME.alpha_ratio (HaloCME.PFloat.fin 1) (HaloCME.PFloat.fin 0))
      (HaloCME.PFloat.fin 8) = true :=
  ⟨HaloCME.alpha_ratio_nan_left, HaloCME.alpha_ratio_nan_right, rfl, rfl⟩

namespace HaloCME

/-- In every branch of `detect_halo_cme`, the returned state of the consumed
frame is the frame with the three moving-average columns written in. -/
theorem detect_halo_cme_snd (rows : List BlkRow) (th : Thresholds) :
    (detect_halo_cme rows th).2 = addMovingAverages rows := by
  unfold detect_halo_cme
  dsimp only
  split
  · split <;> rfl
  · rfl

/-- Projection to the pre-existing columns of the frame handed to
`detect_halo_cme`. -/
def origCols (r : BlkRow) : ℚ × Option ℚ × Option ℚ × Option ℚ :=
  (r.time, r.proton_density, r.proton_bulk_speed, r.alpha_density)

theorem addMovingAverages_origCols (rows : List BlkRow) :
    (addMovingAverages rows).map origCols = rows.map origCols := by
  unfold addMovingAverages
  rw [List.map_map]
  have h2 : rows.enum.map (origCols ∘ fun p =>
      { p.2 with
        density_ma := rollingMean30 (rows.map (fun r => r.proton_density)) p.1
        speed_ma := rollingMean30 (rows.map (fun r => r.proton_bulk_speed)) p.1
        alpha_ma := rollingMean30 (rows.map (fun r => r.alpha_density)) p.1 }) =
      rows.enum.map (fun p => origCols p.2) := by
    apply List.map_congr_left
    intro p _
    rfl
  rw [h2]
  have h3 : rows.enum.map (fun p => origCols p.2) = (rows.enum.map Prod.snd).map origCols := by
    rw [List.map_map]
    rfl
  rw [h3, List.enum_map_snd]

/-- A 30-row frame on which `detect_halo_cme` visibly rewrites its input: the
30th row acquires a present `density_ma`. -/
def exRows30 : List BlkRow :=
  (List.range 30).map (fun i =>
    { dummyRow with
      time := (i : ℚ)
      proton_density := some 1
      proton_bulk_speed := some 1
      alpha_density := some 1 })

end HaloCME

/-- C9: counterexample.  The claim says no stage mutates the series it
consumed; but `detect_halo_cme` assigns the columns `density_ma`, `speed_ma`,
`alpha_ma` into the frame it was handed (pandas column assignment is
in place), so the frame after the call differs from the frame before it:
on 30 rows of present data the 30th row gains a present moving average. -/
theorem c9_purity_counterexample :
    (HaloCME.detect_halo_cme HaloCME.exRows30 {}).2 ≠ HaloCME.exRows30 := by
  with_unfolding_all decide

/-- C9: amended.  `detect_halo_cme` does mutate the series it consumes, but
only by writing the three derived moving-average columns into it: the frame
it returns has the same length and identical values in all pre-existing
columns (`time`, `proton_density`, `proton_bulk_speed`, `alpha_density`). -/
theorem c9_purity_amended :
    ∀ (rows : List HaloCME.BlkRow) (th : HaloCME.Thresholds),
      ((HaloCME.detect_halo_cme rows th).2).map HaloCME.origCols =
          rows.map HaloCME.origCols ∧
        ((HaloCME.detect_halo_cme rows th).2).length = rows.length := by
  intro rows th
  rw [HaloCME.detect_halo_cme_snd]
  constructor
  · exact HaloCME.addMovingAverages_origCols rows
  · unfold HaloCME.addMovingAverages
    rw [List.length_map, List.enum_length]

namespace HaloCME

/-- A one-row frame on which no detection criterion can hold (its speed does
not exceed the default 450 threshold). -/
def exRowQuiet : List BlkRow := [⟨0, some 1, some 1, some 1, none, none, none⟩]

end HaloCME

/-- C10: if no sample satisfies all detection criteria simultaneously (for
whatever reason, including missing cells or rolling-window warm-up making a
criterion unsatisfiable), `detect_halo_cme` returns, without error, a result
with `cme_detected = false`, an empty event list and the empty statistics
dict (no count / average-duration / maxima entries, not a zero-valued
summary). -/
theorem c10_empty_result :
    ∀ (rows : List HaloCME.BlkRow) (th : HaloCME.Thresholds),
      (∀ r ∈ HaloCME.addMovingAverages rows, HaloCME.cmeCandidate th r = false) →
      (HaloCME.detect_halo_cme rows th).1 =
        { cme_detected := false, events := [], statistics := none } := by
  intro rows th h
  have hany : ((HaloCME.addMovingAverages rows).map (HaloCME.cmeCandidate th)).any id = false := by
    rw [List.any_eq_false]
    intro x hx
    rw [List.mem_map] at hx
    obtain ⟨r, hr, rfl⟩ := hx
    simp [h r hr]
  unfold HaloCME.detect_halo_cme
  dsimp only
  rw [hany]
  rfl

/-- C10 witness: a concrete quiet frame (one row, speed below threshold) on
which the theorem's hypothesis holds by evaluation. -/
theorem c10_empty_result_witness :
    (HaloCME.detect_halo_cme HaloCME.exRowQuiet {}).1 =
      { cme_detected := false, events := [], statistics := none } :=
  c10_empty_result HaloCME.exRowQuiet {} (by with_unfolding_all decide)

namespace HaloCME

/-- The square-root-free keep-condition of the source mask is exactly
`|sqrt(vx^2+vy^2+vz^2) - proton_bulk_speed| < 100`. -/
theorem kinematicKeep_iff_sqrt (vx vy vz b : ℚ) :
    kinematicKeep vx vy vz b = true ↔
      |Real.sqrt (((vx ^ 2 + vy ^ 2 + vz ^ 2 : ℚ) : ℝ)) - (b : ℝ)| < 100 := by
  have hS : (0 : ℝ) ≤ ((vx ^ 2 + vy ^ 2 + vz ^ 2 : ℚ) : ℝ) := by positivity
  have hsn : (0 : ℝ) ≤ Real.sqrt ((vx ^ 2 + vy ^ 2 + vz ^ 2 : ℚ) : ℝ) := Real.sqrt_nonneg _
  rw [abs_lt]
  simp only [kinematicKeep, Bool.and_eq_true, Bool.or_eq_true, decide_eq_true_eq]
  constructor
  · rintro ⟨⟨hb, hlt⟩, hright⟩
    have hb' : (-100 : ℝ) < (b : ℝ) := by exact_mod_cast hb
    have hlt' : ((vx ^ 2 + vy ^ 2 + vz ^ 2 : ℚ) : ℝ) < ((b : ℝ) + 100) ^ 2 := by
      have := hlt
      push_cast
      exact_mod_cast hlt
    have hup : Real.sqrt ((vx ^ 2 + vy ^ 2 + vz ^ 2 : ℚ) : ℝ) < (b : ℝ) + 100 :=
      (Real.sqrt_lt' (by linarith)).mpr hlt'
    refine ⟨?_, by linarith⟩
    rcases hright with hb1 | hgt
    · have hb1' : (b : ℝ) < 100 := by exact_mod_cast hb1
      linarith
    · rcases lt_or_le (b : ℝ) 100 with h100 | h100
      · linarith
      · have h0 : (0 : ℝ) ≤ (b : ℝ) - 100 := by linarith
        have hgt' : ((b : ℝ) - 100) ^ 2 < ((vx ^ 2 + vy ^ 2 + vz ^ 2 : ℚ) : ℝ) := by
          exact_mod_cast hgt
        have := (Real.lt_sqrt h0).mpr hgt'
        linarith
  · rintro ⟨h1, h2⟩
    have hb' : (-100 : ℝ) < (b : ℝ) := by linarith
    have hbpos : (0 : ℝ) < (b : ℝ) + 100 := by linarith
    have hup : Real.sqrt ((vx ^ 2 + vy ^ 2 + vz ^ 2 : ℚ) : ℝ) < (b : ℝ) + 100 := by linarith
    have hlt' : ((vx ^ 2 + vy ^ 2 + vz ^ 2 : ℚ) : ℝ) < ((b : ℝ) + 100) ^ 2 :=
      (Real.sqrt_lt' hbpos).mp hup
    refine ⟨⟨by exact_mod_cast hb', by exact_mod_cast hlt'⟩, ?_⟩
    rcases lt_or_le (b : ℝ) 100 with h100 | h100
    · exact Or.inl (by exact_mod_cast h100)
    · have h0 : (0 : ℝ) ≤ (b : ℝ) - 100 := by linarith
      have hlow : (b : ℝ) - 100 < Real.sqrt ((vx ^ 2 + vy ^ 2 + vz ^ 2 : ℚ) : ℝ) := by linarith
      have := (Real.lt_sqrt h0).mp hlow
      exact Or.inr (by exact_mod_cast this)

/-- C4 fixture: velocity (3,4,0) with reported bulk speed 200 (inconsistent,
`|5-200| = 195 >= 100`). -/
def sampleKinDrop : Sample :=
  { time := 0, proton_density := some 1, numden_p_uncer := none,
    proton_bulk_speed := some 200, bulk_p_uncer := none,
    proton_xvelocity := some 3, proton_yvelocity := some 4, proton_zvelocity := some 0,
    proton_thermal := some 1, thermal_p_uncer := none,
    alpha_density := some 1, numden_a_uncer := none,
    alpha_bulk_speed := some 1, bulk_a_uncer := none,
    alpha_thermal := some 1, thermal_a_uncer := none,
    spacecraft_xpos := some 0, spacecraft_ypos := some 0, spacecraft_zpos := some 0 }

/-- C4 fixture: velocity (3,4,0) with reported bulk speed 50 (consistent,
`|5-50| = 45 < 100`). -/
def sampleKinKeep : Sample :=
  { sampleKinDrop with proton_bulk_speed := some 50 }

/-- C4 fixture: a sample whose x-velocity is missing (all other kinematic
inputs present and consistent). -/
def sampleKinNoVx : Sample :=
  { sampleKinDrop with proton_xvelocity := none, proton_bulk_speed := some 5 }

end HaloCME

/-- C4: counterexample.  The claim says every sample missing a velocity
component or the bulk speed is retained unfiltered by the kinematic stage;
but the pandas mask `np.abs(speed_mag - proton_bulk_speed) < 100` is False on
NaN, so a sample with a missing x-velocity is dropped by the stage. -/
theorem c4_kinematic_counterexample :
    HaloCME.sampleKinNoVx.proton_xvelocity = none ∧
    HaloCME.kinematicStage [HaloCME.sampleKinNoVx] ≠ [HaloCME.sampleKinNoVx] := by
  constructor
  · rfl
  · with_unfolding_all decide

/-- C4: amended.  For a sample with all four kinematic inputs present the
stage keeps it iff `|sqrt(vx^2+vy^2+vz^2) - speed| < 100` (so it is dropped
iff the deviation is >= 100): velocity (3,4,0) with speed 200 is dropped and
with speed 50 is retained.  A sample missing any velocity component or the
bulk speed is dropped (not retained) by this stage. -/
theorem c4_kinematic_amended :
    (∀ (s : HaloCME.Sample) (vx vy vz b : ℚ),
        s.proton_xvelocity = some vx → s.proton_yvelocity = some vy →
        s.proton_zvelocity = some vz → s.proton_bulk_speed = some b →
        (HaloCME.kinematicMask s = true ↔
          |Real.sqrt (((vx ^ 2 + vy ^ 2 + vz ^ 2 : ℚ) : ℝ)) - (b : ℝ)| < 100)) ∧
    (∀ s : HaloCME.Sample,
        s.proton_xvelocity = none ∨ s.proton_yvelocity = none ∨
          s.proton_zvelocity = none ∨ s.proton_bulk_speed = none →
        HaloCME.kinematicMask s = false) ∧
    HaloCME.kinematicStage [HaloCME.sampleKinDrop] = [] ∧
    HaloCME.kinematicStage [HaloCME.sampleKinKeep] = [HaloCME.sampleKinKeep] := by
  refine ⟨?_, ?_, ?_, ?_⟩
  · intro s vx vy vz b hx hy hz hb
    unfold HaloCME.kinematicMask
    rw [hx, hy, hz, hb]
    exact HaloCME.kinematicKeep_iff_sqrt vx vy vz b
  · intro s hnone
    unfold HaloCME.kinematicMask
    rcases hnone with h | h | h | h <;> rw [h] <;>
      rcases s.proton_xvelocity with _ | vx <;>
      rcases s.proton_yvelocity with _ | vy <;>
      rcases s.proton_zvelocity with _ | vz <;>
      rcases s.proton_bulk_speed with _ | b <;> rfl
  · with_unfolding_all decide
  · with_unfolding_all decide

/-- C4 witness: the amended theorem applied at the two concrete fixtures,
discharging its hypotheses by evaluation. -/
theorem c4_kinematic_amended_witness :
    (HaloCME.kinematicMask HaloCME.sampleKinKeep = true ↔
      |Real.sqrt (((3 ^ 2 + 4 ^ 2 + 0 ^ 2 : ℚ) : ℝ)) - ((50 : ℚ) : ℝ)| < 100) ∧
    HaloCME.kinematicMask HaloCME.sampleKinNoVx = false :=
  ⟨c4_kinematic_amended.1 HaloCME.sampleKinKeep 3 4 0 50 rfl rfl rfl rfl,
   c4_kinematic_amended.2.1 HaloCME.sampleKinNoVx (Or.inl rfl)⟩

namespace HaloCME

/-- `clip(lo, hi)` written as a case split: values below `lo` go to `lo`,
values above `hi` go to `hi`, in-range values are unchanged. -/
theorem clipQ_eq (lo hi x : ℚ) (h : lo ≤ hi) :
    clipQ lo hi x = if x < lo then lo else if hi < x then hi else x := by
  unfold clipQ
  split_ifs with h1 h2
  · rw [max_eq_right (le_of_lt h1), min_eq_left h]
  · rw [max_eq_left (le_of_not_lt h1), min_eq_right (le_of_lt h2)]
  · rw [max_eq_left (le_of_not_lt h1), min_eq_left (le_of_not_lt h2)]

theorem clipQ_bounds (lo hi x : ℚ) (h : lo ≤ hi) :
    lo ≤ clipQ lo hi x ∧ clipQ lo hi x ≤ hi :=
  ⟨le_min (le_max_right x lo) h, min_le_right _ _⟩

/-- C7 fixture: out-of-range density and thermal values. -/
def sampleClip : Sample :=
  { time := 0, proton_density := some 150, numden_p_uncer := none,
    proton_bulk_speed := some 400, bulk_p_uncer := none,
    proton_xvelocity := none, proton_yvelocity := none, proton_zvelocity := none,
    proton_thermal := some (-5), thermal_p_uncer := none,
    alpha_density := none, numden_a_uncer := none,
    alpha_bulk_speed := none, bulk_a_uncer := none,
    alpha_thermal := some 42, thermal_a_uncer := none,
    spacecraft_xpos := none, spacecraft_ypos := none, spacecraft_zpos := none }

end HaloCME

/-- C7: after the physics-range stage every present `proton_density` /
`alpha_density` lies in [0, 100] and every present `proton_thermal` /
`alpha_thermal` lies in [0, 1e5]; out-of-interval values are clamped to the
nearest bound (not discarded: the frame keeps its length and row positions,
and not nulled: present stays present), missing cells pass through unchanged,
and untouched columns (e.g. `time`, `proton_bulk_speed`) are preserved. -/
theorem c7_range_clamp :
    (∀ (df : List HaloCME.Sample) (s : HaloCME.Sample), s ∈ HaloCME.rangeStage df →
      (∀ v, s.proton_density = some v → 0 ≤ v ∧ v ≤ 100) ∧
      (∀ v, s.alpha_density = some v → 0 ≤ v ∧ v ≤ 100) ∧
      (∀ v, s.proton_thermal = some v → 0 ≤ v ∧ v ≤ 100000) ∧
      (∀ v, s.alpha_thermal = some v → 0 ≤ v ∧ v ≤ 100000)) ∧
    (∀ df : List HaloCME.Sample, (HaloCME.rangeStage df).length = df.length) ∧
    (∀ (df : List HaloCME.Sample) (i : ℕ) (s : HaloCME.Sample), df[i]? = some s →
      ∃ s2 : HaloCME.Sample, (HaloCME.rangeStage df)[i]? = some s2 ∧
        s2.time = s.time ∧
        s2.proton_bulk_speed = s.proton_bulk_speed ∧
        (s.proton_density = none → s2.proton_density = none) ∧
        (∀ v, s.proton_density = some v →
          s2.proton_density = some (if v < 0 then 0 else if 100 < v then 100 else v)) ∧
        (s.alpha_density = none → s2.alpha_density = none) ∧
        (∀ v, s.alpha_density = some v →
          s2.alpha_density = some (if v < 0 then 0 else if 100 < v then 100 else v)) ∧
        (s.proton_thermal = none → s2.proton_thermal = none) ∧
        (∀ v, s.proton_thermal = some v →
          s2.proton_thermal =
            some (if v < 0 then 0 else if 100000 < v then 100000 else v)) ∧
        (s.alpha_thermal = none → s2.alpha_thermal = none) ∧
        (∀ v, s.alpha_thermal = some v →
          s2.alpha_thermal =
            some (if v < 0 then 0 else if 100000 < v then 100000 else v))) := by
  refine ⟨?_, ?_, ?_⟩
  · intro df s hs
    rw [HaloCME.rangeStage, List.mem_map] at hs
    obtain ⟨x, _, rfl⟩ := hs
    refine ⟨?_, ?_, ?_, ?_⟩
    · intro v hv
      rcases hx : x.proton_density with _ | w
      · simp only [HaloCME.rangeSample, hx, Option.map_none'] at hv
        exact absurd hv (by simp)
      · simp only [HaloCME.rangeSample, hx, Option.map_some', Option.some_inj] at hv
        rw [← hv]
        exact HaloCME.clipQ_bounds 0 100 w (by norm_num)
    · intro v hv
      rcases hx : x.alpha_density with _ | w
      · simp only [HaloCME.rangeSample, hx, Option.map_none'] at hv
        exact absurd hv (by simp)
      · simp only [HaloCME.rangeSample, hx, Option.map_some', Option.some_inj] at hv
        rw [← hv]
        exact HaloCME.clipQ_bounds 0 100 w (by norm_num)
    · intro v hv
      rcases hx : x.proton_thermal with _ | w
      · simp only [HaloCME.rangeSample, hx, Option.map_none'] at hv
        exact absurd hv (by simp)
      · simp only [HaloCME.rangeSample, hx, Option.map_some', Option.some_inj] at hv
        rw [← hv]
        exact HaloCME.clipQ_bounds 0 100000 w (by norm_num)
    · intro v hv
      rcases hx : x.alpha_thermal with _ | w
      · simp only [HaloCME.rangeSample, hx, Option.map_none'] at hv
        exact absurd hv (by simp)
      · simp only [HaloCME.rangeSample, hx, Option.map_some', Option.some_inj] at hv
        rw [← hv]
        exact HaloCME.clipQ_bounds 0 100000 w (by norm_num)
  · intro df
    rw [HaloCME.rangeStage, List.length_map]
  · intro df i s hi
    refine ⟨HaloCME.rangeSample s, ?_, rfl, rfl, ?_, ?_, ?_, ?_, ?_, ?_, ?_, ?_⟩
    · rw [HaloCME.rangeStage, List.getElem?_map, hi, Option.map_some']
    · intro h
      simp [HaloCME.rangeSample, h]
    · intro v h
      simp only [HaloCME.rangeSample, h, Option.map_some']
      rw [HaloCME.clipQ_eq 0 100 v (by norm_num)]
    · intro h
      simp [HaloCME.rangeSample, h]
    · intro v h
      simp only [HaloCME.rangeSample, h, Option.map_some']
      rw [HaloCME.clipQ_eq 0 100 v (by norm_num)]
    · intro h
      simp [HaloCME.rangeSample, h]
    · intro v h
      simp only [HaloCME.rangeSample, h, Option.map_some']
      rw [HaloCME.clipQ_eq 0 100000 v (by norm_num)]
    · intro h
      simp [HaloCME.rangeSample, h]
    · intro v h
      simp only [HaloCME.rangeSample, h, Option.map_some']
      rw [HaloCME.clipQ_eq 0 100000 v (by norm_num)]

/-- C7 witness: the clamping description applied to a concrete one-row frame
with an out-of-range density (150) and thermal speed (-5). -/
theorem c7_range_clamp_witness :
    ∃ s2 : HaloCME.Sample, (HaloCME.rangeStage [HaloCME.sampleClip])[0]? = some s2 ∧
      s2.time = HaloCME.sampleClip.time ∧
      s2.proton_bulk_speed = HaloCME.sampleClip.proton_bulk_speed ∧
      (HaloCME.sampleClip.proton_density = none → s2.proton_density = none) ∧
      (∀ v, HaloCME.sampleClip.proton_density = some v →
        s2.proton_density = some (if v < 0 then 0 else if 100 < v then 100 else v)) ∧
      (HaloCME.sampleClip.alpha_density = none → s2.alpha_density = none) ∧
      (∀ v, HaloCME.sampleClip.alpha_density = some v →
        s2.alpha_density = some (if v < 0 then 0 else if 100 < v then 100 else v)) ∧
      (HaloCME.sampleClip.proton_thermal = none → s2.proton_thermal = none) ∧
      (∀ v, HaloCME.sampleClip.proton_thermal = some v →
        s2.proton_thermal =
          some (if v < 0 then 0 else if 100000 < v then 100000 else v)) ∧
      (HaloCME.sampleClip.alpha_thermal = none → s2.alpha_thermal = none) ∧
      (∀ v, HaloCME.sampleClip.alpha_thermal = some v →
        s2.alpha_thermal =
          some (if v < 0 then 0 else if 100000 < v then 100000 else v)) :=
  c7_range_clamp.2.2 [HaloCME.sampleClip] 0 HaloCME.sampleClip rfl

namespace HaloCME

/-- Pointwise description of `interpSeries`. -/
theorem interpSeries_getElem? (tvs : List (ℚ × Option ℚ)) (i : ℕ) :
    (interpSeries tvs)[i]? = tvs[i]?.map (fun tv => (tv.1, interpAt tvs i tv.1 tv.2)) := by
  unfold interpSeries
  rw [List.getElem?_map, List.getElem?_enum, Option.map_map]
  rfl

/-- C3 fixture: an interior run of six consecutive missing cells
(indices 1..6) between valid cells at times 0 and 7. -/
def exGap6 : List (ℚ × Option ℚ) :=
  [(0, some 0), (1, none), (2, none), (3, none), (4, none), (5, none), (6, none), (7, some 70)]

end HaloCME

/-- C3: counterexample.  The claim says a run of more than 5 consecutive
missing samples remains entirely missing.  On a run of six missing cells
(indices 1..6; the run ending at index 6 has length 6 > 5) the stage fills
the first five of them (`limit=5` bounds how many consecutive NaNs are
filled, it does not disable filling for longer runs); only the sixth stays
missing. -/
theorem c3_gap_limit_counterexample :
    HaloCME.missRun HaloCME.exGap6 6 = 6 ∧
    HaloCME.interpSeries HaloCME.exGap6 =
      [(0, some 0), (1, some 10), (2, some 20), (3, some 30), (4, some 40), (5, some 50),
       (6, none), (7, some 70)] := by
  constructor
  · with_unfolding_all decide
  · with_unfolding_all decide

/-- C3: amended.  The temporal stage interpolates a missing cell only when it
is among the first 5 missing cells of its consecutive missing run (equally:
at most 4 consecutive missing cells precede it) and some earlier cell of the
column is valid; conversely a missing cell beyond the fifth of its run, or
with no earlier valid cell, stays missing — so in a run longer than 5 the
cells from the sixth onward stay missing while the first five are filled. -/
theorem c3_gap_limit_amended :
    (∀ (tvs : List (ℚ × Option ℚ)) (i : ℕ) (t : ℚ),
      tvs[i]? = some (t, none) →
      5 < HaloCME.missRun tvs i ∨ HaloCME.findPrevValid tvs i = none →
      (HaloCME.interpSeries tvs)[i]? = some (t, none)) ∧
    (∀ (tvs : List (ℚ × Option ℚ)) (i : ℕ) (t : ℚ) (v : ℚ),
      tvs[i]? = some (t, none) →
      (HaloCME.interpSeries tvs)[i]? = some (t, some v) →
      HaloCME.missRun tvs i ≤ 5 ∧ HaloCME.findPrevValid tvs i ≠ none) := by
  constructor
  · intro tvs i t hin hcase
    rw [HaloCME.interpSeries_getElem?, hin, Option.map_some']
    have : HaloCME.interpAt tvs i t none = none := by
      unfold HaloCME.interpAt
      rcases hp : HaloCME.findPrevValid tvs i with _ | tpvp
      · rfl
      · rcases hcase with hrun | hnone
        · simp [hrun]
        · rw [hnone] at hp
          exact absurd hp (by simp)
    rw [this]
  · intro tvs i t v hin hout
    rw [HaloCME.interpSeries_getElem?, hin, Option.map_some'] at hout
    have hout2 : HaloCME.interpAt tvs i t none = some v := by
      injection hout with h2
      injection h2
    rcases hp : HaloCME.findPrevValid tvs i with _ | tpvp
    · exfalso
      have hnone : HaloCME.interpAt tvs i t none = none := by
        simp [HaloCME.interpAt, hp]
      rw [hnone] at hout2
      exact Option.noConfusion hout2
    · by_cases hrun : 5 < HaloCME.missRun tvs i
      · exfalso
        obtain ⟨tp, vp⟩ := tpvp
        have hnone : HaloCME.interpAt tvs i t none = none := by
          simp [HaloCME.interpAt, hp, hrun]
        rw [hnone] at hout2
        exact Option.noConfusion hout2
      · exact ⟨le_of_not_lt hrun, by simp [hp]⟩

/-- C3 witness: the amended theorem at the concrete fixture, index 6 (the
sixth cell of its missing run, hence beyond the limit): the cell stays
missing. -/
theorem c3_gap_limit_amended_witness :
    (HaloCME.interpSeries HaloCME.exGap6)[6]? = some (6, none) :=
  c3_gap_limit_amended.1 HaloCME.exGap6 6 6 rfl
    (Or.inl (by with_unfolding_all decide))

namespace HaloCME

/-- Fixture builder: a sample carrying only a timestamp and a spacecraft
position. -/
def posSample (t : ℚ) (x y z : Option ℚ) : Sample :=
  { time := t, proton_density := none, numden_p_uncer := none,
    proton_bulk_speed := none, bulk_p_uncer := none,
    proton_xvelocity := none, proton_yvelocity := none, proton_zvelocity := none,
    proton_thermal := none, thermal_p_uncer := none,
    alpha_density := none, numden_a_uncer := none,
    alpha_bulk_speed := none, bulk_a_uncer := none,
    alpha_thermal := none, thermal_a_uncer := none,
    spacecraft_xpos := x, spacecraft_ypos := y, spacecraft_zpos := z }

def posA : Sample := posSample 0 (some 0) (some 0) (some 0)

/-- x-difference missing, y- and z-differences present and small. -/
def posB : Sample := posSample 1 none (some 1) (some 1)

def posC0 : Sample := posSample 0 (some 0) (some 0) (some 0)

def posC1 : Sample := posSample 1 (some 2000) (some 0) (some 0)

def posC2 : Sample := posSample 2 (some 2001) (some 0) (some 0)

def posD0 : Sample := posSample 0 (some 0) (some 0) (some 0)

def posD1 : Sample := posSample 1 (some 1) (some 1) (some 1)

def posD2 : Sample := posSample 2 (some 2000) (some 2) (some 2)

end HaloCME

/-- C5: counterexample.  Two falsifying evaluations: (a) a sample whose
x-position difference is missing while its present y/z differences are both
`1 < 1000` is dropped (the claim says such a sample is retained); (b) with
positions x = 0, 2000, 2001 the second sample is dropped but the third is
retained, although the third's difference from the immediately preceding
*retained* sample (the first, `|2001 - 0| >= 1000`) exceeds the threshold:
`diff()` is taken against the preceding input row, not the preceding retained
row. -/
theorem c5_spatial_counterexample :
    HaloCME.spatialStage [HaloCME.posA, HaloCME.posB] = [HaloCME.posA] ∧
    HaloCME.spatialStage [HaloCME.posC0, HaloCME.posC1, HaloCME.posC2] =
      [HaloCME.posC0, HaloCME.posC2] := by
  constructor
  · with_unfolding_all decide
  · with_unfolding_all decide

set_option linter.unnecessarySeqFocus false in
/-- C5: amended.  A sample other than the first is retained iff, relative to
the immediately preceding sample of the stage's input frame (whether or not
that sample is itself retained), either all three position-component
differences are present and each is `< 1000`, or all three differences are
missing; in particular a sample with some but not all differences missing is
dropped.  The first sample is always retained.  On positions
[(0,0,0),(1,1,1),(2000,2,2)] the third sample is dropped. -/
theorem c5_spatial_amended :
    (∀ p s : HaloCME.Sample,
      HaloCME.spatialKeep (some p) s = true ↔
        (((∃ a b, p.spacecraft_xpos = some a ∧ s.spacecraft_xpos = some b ∧ |b - a| < 1000) ∧
          (∃ a b, p.spacecraft_ypos = some a ∧ s.spacecraft_ypos = some b ∧ |b - a| < 1000) ∧
          (∃ a b, p.spacecraft_zpos = some a ∧ s.spacecraft_zpos = some b ∧ |b - a| < 1000)) ∨
         ((p.spacecraft_xpos = none ∨ s.spacecraft_xpos = none) ∧
          (p.spacecraft_ypos = none ∨ s.spacecraft_ypos = none) ∧
          (p.spacecraft_zpos = none ∨ s.spacecraft_zpos = none)))) ∧
    (∀ s : HaloCME.Sample, HaloCME.spatialKeep none s = true) ∧
    HaloCME.spatialStage [HaloCME.posD0, HaloCME.posD1, HaloCME.posD2] =
      [HaloCME.posD0, HaloCME.posD1] := by
  refine ⟨?_, ?_, ?_⟩
  · intro p s
    rcases hx1 : p.spacecraft_xpos with _ | a1 <;>
    rcases hx2 : s.spacecraft_xpos with _ | b1 <;>
    rcases hy1 : p.spacecraft_ypos with _ | a2 <;>
    rcases hy2 : s.spacecraft_ypos with _ | b2 <;>
    rcases hz1 : p.spacecraft_zpos with _ | a3 <;>
    rcases hz2 : s.spacecraft_zpos with _ | b3 <;>
      simp [HaloCME.spatialKeep, HaloCME.odiffabs, HaloCME.oltThousand,
        hx1, hx2, hy1, hy2, hz1, hz2] <;>
      (try exact and_assoc)
  · intro s
    rfl
  · with_unfolding_all decide

namespace HaloCME

theorem mem_insertS {x a : Sample} {l : List Sample} (h : x ∈ insertS a l) :
    x = a ∨ x ∈ l := by
  induction l with
  | nil =>
      rw [insertS] at h
      rcases List.mem_singleton.mp h with h1
      exact Or.inl h1
  | cons b bt ih =>
      rw [insertS] at h
      split at h
      · rcases List.mem_cons.mp h with h1 | h1
        · exact Or.inl h1
        · exact Or.inr h1
      · rcases List.mem_cons.mp h with h1 | h1
        · exact Or.inr (List.mem_cons.mpr (Or.inl h1))
        · rcases ih h1 with h2 | h2
          · exact Or.inl h2
          · exact Or.inr (List.mem_cons.mpr (Or.inr h2))

theorem insertS_sorted (a : Sample) {l : List Sample}
    (h : l.Pairwise (fun x y => x.time ≤ y.time)) :
    (insertS a l).Pairwise (fun x y => x.time ≤ y.time) := by
  induction l with
  | nil => simp [insertS]
  | cons b bt ih =>
      rw [insertS]
      rcases List.pairwise_cons.mp h with ⟨hb, hbt⟩
      split
      · rename_i hle
        rw [List.pairwise_cons]
        refine ⟨?_, h⟩
        intro y hy
        rcases List.mem_cons.mp hy with rfl | hy2
        · exact hle
        · exact le_trans hle (hb y hy2)
      · rename_i hgt
        rw [List.pairwise_cons]
        refine ⟨?_, ih hbt⟩
        intro y hy
        rcases mem_insertS hy with rfl | hy2
        · exact le_of_lt (lt_of_not_le hgt)
        · exact hb y hy2

theorem isortByTime_sorted (l : List Sample) :
    (isortByTime l).Pairwise (fun x y => x.time ≤ y.time) := by
  induction l with
  | nil => simp [isortByTime]
  | cons a l ih => exact insertS_sorted a ih

theorem insertS_filter_time (a : Sample) (l : List Sample) (t : ℚ) :
    (insertS a l).filter (fun x => decide (x.time = t)) =
      if a.time = t then a :: l.filter (fun x => decide (x.time = t))
      else l.filter (fun x => decide (x.time = t)) := by
  induction l with
  | nil =>
      rw [insertS]
      split <;> simp_all [List.filter]
  | cons b bt ih =>
      rw [insertS]
      split
      · rename_i hle
        by_cases hat : a.time = t <;> by_cases hbt2 : b.time = t <;>
          simp [List.filter_cons, hat, hbt2]
      · rename_i hgt
        have hblt : b.time < a.time := lt_of_not_le hgt
        by_cases hat : a.time = t <;> by_cases hbt2 : b.time = t
        · exact absurd (hat ▸ hbt2) (ne_of_lt hblt)
        · simp [List.filter_cons, hat, hbt2, ih]
        · simp [List.filter_cons, hat, hbt2, ih]
        · simp [List.filter_cons, hat, hbt2, ih]

theorem isortByTime_filter_time (l : List Sample) (t : ℚ) :
    (isortByTime l).filter (fun x => decide (x.time = t)) =
      l.filter (fun x => decide (x.time = t)) := by
  induction l with
  | nil => rfl
  | cons a l ih =>
      rw [isortByTime, insertS_filter_time]
      by_cases hat : a.time = t <;> simp [List.filter_cons, hat, ih]

theorem dedupAux_sublist (seen : List ℚ) (l : List Sample) :
    (dedupAux seen l).Sublist l := by
  induction l generalizing seen with
  | nil => simp [dedupAux]
  | cons s rest ih =>
      rw [dedupAux]
      split
      · exact List.Sublist.cons s (ih seen)
      · exact List.Sublist.cons₂ s (ih (s.time :: seen))

theorem mem_dedupAux_time_not_seen {seen : List ℚ} {l : List Sample} {x : Sample}
    (h : x ∈ dedupAux seen l) : x.time ∉ seen := by
  induction l generalizing seen with
  | nil => simp [dedupAux] at h
  | cons s rest ih =>
      rw [dedupAux] at h
      split at h
      · exact ih h
      · rcases List.mem_cons.mp h with rfl | h2
        · assumption
        · intro hmem
          exact ih h2 (List.mem_cons.mpr (Or.inr hmem))

theorem dedupAux_pairwise_ne (seen : List ℚ) (l : List Sample) :
    (dedupAux seen l).Pairwise (fun a b => a.time ≠ b.time) := by
  induction l generalizing seen with
  | nil => simp [dedupAux]
  | cons s rest ih =>
      rw [dedupAux]
      split
      · exact ih seen
      · rw [List.pairwise_cons]
        refine ⟨?_, ih (s.time :: seen)⟩
        intro y hy
        have := mem_dedupAux_time_not_seen hy
        intro hSy
        exact this (hSy ▸ List.mem_cons_self s.time seen)

theorem dedupAux_filter_time (seen : List ℚ) (l : List Sample) (t : ℚ) :
    (dedupAux seen l).filter (fun x => decide (x.time = t)) =
      if t ∈ seen then [] else (l.filter (fun x => decide (x.time = t))).take 1 := by
  induction l generalizing seen with
  | nil => simp [dedupAux]
  | cons s rest ih =>
      rw [dedupAux]
      split
      · rename_i hseen
        rw [ih seen]
        by_cases hts : t ∈ seen
        · simp [hts]
        · have hst : ¬ s.time = t := by
            intro h
            exact hts (h ▸ hseen)
          simp [hts, List.filter_cons, hst]
      · rename_i hseen
        rw [List.filter_cons]
        by_cases hst : s.time = t
        · subst hst
          rw [ih (s.time :: seen)]
          simp [hseen, List.filter_cons]
        · simp only [decide_eq_true_eq, if_neg hst]
          rw [ih (s.time :: seen)]
          have hmm : (t ∈ s.time :: seen) ↔ t ∈ seen := by
            rw [List.mem_cons]
            constructor
            · rintro (h | h)
              · exact absurd h.symm hst
              · exact h
            · exact Or.inr
          rw [if_congr hmm rfl rfl, List.filter_cons]
          simp only [decide_eq_true_eq, if_neg hst]

theorem find?_eq_head?_filter (l : List Sample) (p : Sample → Bool) :
    l.find? p = (l.filter p).head? := by
  induction l with
  | nil => rfl
  | cons a l ih =>
      rw [List.filter_cons]
      rcases hp : p a with _ | _
      · rw [List.find?_cons_of_neg _ (by simp [hp]), if_neg (by simp [hp]), ih]
      · rw [List.find?_cons_of_pos _ (by simp [hp]), if_pos (by simp [hp]), List.head?_cons]

theorem insertS_perm (a : Sample) (l : List Sample) : (insertS a l).Perm (a :: l) := by
  induction l with
  | nil => exact List.Perm.refl _
  | cons b bt ih =>
      rw [insertS]
      split
      · exact List.Perm.refl _
      · exact (ih.cons b).trans (List.Perm.swap a b bt)

theorem isortByTime_perm (l : List Sample) : (isortByTime l).Perm l := by
  induction l with
  | nil => exact List.Perm.refl _
  | cons a l ih => exact (insertS_perm a (isortByTime l)).trans (ih.cons a)

/-- C6 fixture: two samples share timestamp 1 — `dupA` arrives first and
carries position x = 1, the later duplicate `dupC` carries x = 2; `dupB`
sits at time 0. -/
def dupA : Sample := posSample 1 (some 1) none none

def dupB : Sample := posSample 0 none none none

def dupC : Sample := posSample 1 (some 2) none none

end HaloCME

/-- C6: counterexample.  The claim says that among input samples sharing a
timestamp, exactly the first in input-arrival order survives the sort + dedup
stage.  But `df.sort_values('time')` with its default `kind='quicksort'`
guarantees only a time-ascending permutation (pandas: only mergesort/stable
are stable), so on the input [dupA, dupC] — both at time 1, dupA the first
arrival — the reordering [dupC, dupA] is an admissible output of the sort
stage, and `drop_duplicates(keep='first')` then retains dupC, not the first
arrival dupA. -/
theorem c6_sort_dedup_counterexample :
    HaloCME.timeSorted [HaloCME.dupA, HaloCME.dupC] [HaloCME.dupC, HaloCME.dupA] ∧
    HaloCME.dedupByTime [HaloCME.dupC, HaloCME.dupA] = [HaloCME.dupC] ∧
    HaloCME.dupC ≠ HaloCME.dupA ∧
    [HaloCME.dupA, HaloCME.dupC].find? (fun x => decide (x.time = 1)) =
      some HaloCME.dupA := by
  refine ⟨⟨List.Perm.swap HaloCME.dupA HaloCME.dupC [], ?_⟩, ?_, ?_, ?_⟩
  · with_unfolding_all decide
  · with_unfolding_all decide
  · with_unfolding_all decide
  · with_unfolding_all decide

/-- C6: amended.  For every admissible output of the sort stage (any
time-ascending permutation of the input; the tie order among equal
timestamps is unspecified by the default quicksort), dedup leaves pairwise
strictly increasing timestamps (no duplicates), and for each timestamp
present it retains exactly one sample: the first in the *sorted* order,
always some input sample carrying that timestamp, but the first in
input-arrival order only when the tie order preserves arrival order.  The
stable insertion sort is one admissible implementation, and under it the
survivor is indeed the first arrival. -/
theorem c6_sort_dedup_amended :
    (∀ (df out : List HaloCME.Sample), HaloCME.timeSorted df out →
      (HaloCME.dedupByTime out).Pairwise (fun a b => a.time < b.time)) ∧
    (∀ (df out : List HaloCME.Sample) (t : ℚ) (s : HaloCME.Sample),
      HaloCME.timeSorted df out →
      out.find? (fun x => decide (x.time = t)) = some s →
      (HaloCME.dedupByTime out).filter (fun x => decide (x.time = t)) = [s] ∧
        s ∈ df ∧ s.time = t) ∧
    (∀ df : List HaloCME.Sample, HaloCME.timeSorted df (HaloCME.isortByTime df)) ∧
    (∀ (df : List HaloCME.Sample) (t : ℚ) (s : HaloCME.Sample),
      df.find? (fun x => decide (x.time = t)) = some s →
      (HaloCME.sortDedup df).filter (fun x => decide (x.time = t)) = [s]) := by
  refine ⟨?_, ?_, ?_, ?_⟩
  · intro df out h
    have hle : (HaloCME.dedupByTime out).Pairwise (fun x y => x.time ≤ y.time) :=
      List.Pairwise.sublist (HaloCME.dedupAux_sublist [] out) h.2
    have hne : (HaloCME.dedupByTime out).Pairwise (fun a b => a.time ≠ b.time) :=
      HaloCME.dedupAux_pairwise_ne [] out
    exact (hle.and hne).imp (fun h2 => lt_of_le_of_ne h2.1 h2.2)
  · intro df out t s h hfind
    refine ⟨?_, ?_, ?_⟩
    · rw [HaloCME.dedupByTime, HaloCME.dedupAux_filter_time, if_neg (List.not_mem_nil t)]
      rw [HaloCME.find?_eq_head?_filter] at hfind
      rcases hflt : out.filter (fun x => decide (x.time = t)) with _ | ⟨a, rest⟩
      · rw [hflt] at hfind
        exact absurd hfind (by simp)
      · rw [hflt] at hfind
        rw [List.head?_cons, Option.some_inj] at hfind
        rw [hflt]
        simp [hfind]
    · exact h.1.mem_iff.mp (List.mem_of_find?_eq_some hfind)
    · have hp := List.find?_some hfind
      simp only [decide_eq_true_eq] at hp
      exact hp
  · intro df
    exact ⟨HaloCME.isortByTime_perm df, HaloCME.isortByTime_sorted df⟩
  · intro df t s hfind
    rw [HaloCME.sortDedup, HaloCME.dedupByTime, HaloCME.dedupAux_filter_time,
      if_neg (List.not_mem_nil t), HaloCME.isortByTime_filter_time]
    rw [HaloCME.find?_eq_head?_filter] at hfind
    rcases hflt : df.filter (fun x => decide (x.time = t)) with _ | ⟨a, rest⟩
    · rw [hflt] at hfind
      exact absurd hfind (by simp)
    · rw [hflt] at hfind
      rw [List.head?_cons, Option.some_inj] at hfind
      rw [hflt]
      simp [hfind]

/-- C6 witness: part two of the amended theorem at the admissible sorted
output [dupC, dupA] of input [dupA, dupC] (the survivor is dupC, an input
sample at time 1), and the stable-instance part on [dupA, dupB, dupC] (the
survivor at time 1 is dupA, the first arrival). -/
theorem c6_sort_dedup_amended_witness :
    ((HaloCME.dedupByTime [HaloCME.dupC, HaloCME.dupA]).filter
        (fun x => decide (x.time = 1)) = [HaloCME.dupC] ∧
      HaloCME.dupC ∈ [HaloCME.dupA, HaloCME.dupC] ∧ HaloCME.dupC.time = 1) ∧
    (HaloCME.sortDedup [HaloCME.dupA, HaloCME.dupB, HaloCME.dupC]).filter
        (fun x => decide (x.time = 1)) = [HaloCME.dupA] :=
  ⟨c6_sort_dedup_amended.2.1 [HaloCME.dupA, HaloCME.dupC] [HaloCME.dupC, HaloCME.dupA] 1
      HaloCME.dupC
      ⟨List.Perm.swap HaloCME.dupA HaloCME.dupC [], by with_unfolding_all decide⟩
      (by with_unfolding_all decide),
   c6_sort_dedup_amended.2.2.2 [HaloCME.dupA, HaloCME.dupB, HaloCME.dupC] 1 HaloCME.dupA
      (by with_unfolding_all decide)⟩

namespace HaloCME

/-- The flagged rows of the keyed frame, as one recursion: walk the
(row, flag) pairs computing the change-count key, keeping `(key, row)` for
flagged rows. -/
def keyedFlagged {α : Type} : Option Bool → ℕ → List (α × Bool) → List (ℕ × α)
  | _, _, [] => []
  | prev, k, (r, f) :: rest =>
      if f then (nextKey prev f k, r) :: keyedFlagged (some f) (nextKey prev f k) rest
      else keyedFlagged (some f) (nextKey prev f k) rest

theorem zip_filter_keyedFlagged {α : Type} :
    ∀ (l : List (α × Bool)) (prev : Option Bool) (k : ℕ),
      ((l.zip (shiftNeKeysAux prev k (l.map (fun p => p.2)))).filter (fun p => p.1.2)).map
          (fun p => (p.2, p.1.1)) =
        keyedFlagged prev k l := by
  intro l
  induction l with
  | nil => intro prev k; rfl
  | cons a rest ih =>
      obtain ⟨r, f⟩ := a
      intro prev k
      rcases f with _ | _ <;>
        simp [shiftNeKeysAux, List.filter_cons, keyedFlagged, ih]

theorem keyedFlagged_key_le {α : Type} :
    ∀ (l : List (α × Bool)) (prev : Option Bool) (k : ℕ) (p : ℕ × α),
      p ∈ keyedFlagged prev k l → k ≤ p.1 := by
  intro l
  induction l with
  | nil =>
      intro prev k p h
      simp [keyedFlagged] at h
  | cons a rest ih =>
      obtain ⟨r, f⟩ := a
      intro prev k p h
      have hk2 : k ≤ nextKey prev f k := by
        unfold nextKey
        split
        · exact le_refl k
        · exact Nat.le_succ k
      rcases f with _ | _
      · simp only [keyedFlagged, if_neg Bool.false_ne_true] at h
        exact le_trans hk2 (ih _ _ p h)
      · simp only [keyedFlagged, if_pos rfl] at h
        rcases List.mem_cons.mp h with rfl | h2
        · exact hk2
        · exact le_trans hk2 (ih _ _ p h2)

/-- The maximal leading run of flagged elements. -/
def trueRunHead {α : Type} : List (α × Bool) → List α
  | (a, true) :: rest => a :: trueRunHead rest
  | _ => []

/-- What remains after the maximal leading run of flagged elements. -/
def afterTrueRun {α : Type} : List (α × Bool) → List (α × Bool)
  | (_, true) :: rest => afterTrueRun rest
  | l => l

theorem afterTrueRun_length_le {α : Type} :
    ∀ l : List (α × Bool), (afterTrueRun l).length ≤ l.length := by
  intro l
  induction l with
  | nil => simp [afterTrueRun]
  | cons a rest ih =>
      obtain ⟨r, f⟩ := a
      rcases f with _ | _
      · simp [afterTrueRun]
      · rw [afterTrueRun]
        exact le_trans ih (Nat.le_succ _)

/-- Specification-side regrouping: the maximal runs of consecutively flagged
elements, each run listing its elements in order. -/
def trueRuns {α : Type} : List (α × Bool) → List (List α)
  | [] => []
  | (_, false) :: rest => trueRuns rest
  | (a, true) :: rest => (a :: trueRunHead rest) :: trueRuns (afterTrueRun rest)
termination_by l => l.length
decreasing_by
  · simp
  · exact Nat.lt_succ_of_le (afterTrueRun_length_le rest)

end HaloCME

namespace HaloCME

theorem gck_cons_cons {α : Type} (k : ℕ) (r : α) (k2 : ℕ) (r2 : α) (rest : List (ℕ × α)) :
    groupConsecKeys ((k, r) :: (k2, r2) :: rest) =
      match groupConsecKeys ((k2, r2) :: rest) with
      | [] => [[r]]
      | g :: gs => if k2 = k then (r :: g) :: gs else [r] :: g :: gs := rfl

theorem tr_nil {α : Type} : trueRuns ([] : List (α × Bool)) = [] := by
  rw [trueRuns]

theorem tr_cons_false {α : Type} (a : α) (rest : List (α × Bool)) :
    trueRuns ((a, false) :: rest) = trueRuns rest := by
  rw [trueRuns]

theorem tr_cons_true {α : Type} (a : α) (rest : List (α × Bool)) :
    trueRuns ((a, true) :: rest) = (a :: trueRunHead rest) :: trueRuns (afterTrueRun rest) := by
  rw [trueRuns]

theorem groupConsecKeys_run_case {α : Type} (n : ℕ)
    (ihn : ∀ l : List (α × Bool), l.length ≤ n → ∀ (prev : Option Bool) (k : ℕ),
      groupConsecKeys (keyedFlagged prev k l) = trueRuns l) :
    ∀ rest : List (α × Bool), rest.length ≤ n → ∀ (r : α) (k2 : ℕ),
      groupConsecKeys ((k2, r) :: keyedFlagged (some true) k2 rest) =
        (r :: trueRunHead rest) :: trueRuns (afterTrueRun rest) := by
  intro rest
  induction rest with
  | nil =>
      intro _ r k2
      have h1 : afterTrueRun ([] : List (α × Bool)) = [] := rfl
      rw [h1, tr_nil]
      rfl
  | cons a rest2 ih =>
      obtain ⟨r2, f2⟩ := a
      intro hlen r k2
      have hlen2 : rest2.length ≤ n := le_trans (Nat.le_succ _) hlen
      rcases f2 with _ | _
      · have hkf : keyedFlagged (some true) k2 ((r2, false) :: rest2) =
            keyedFlagged (some false) (k2 + 1) rest2 := by
          simp [keyedFlagged, nextKey]
        have hih := ihn rest2 hlen2 (some false) (k2 + 1)
        have hhead : trueRunHead ((r2, false) :: rest2) = ([] : List α) := rfl
        have hafter : afterTrueRun ((r2, false) :: rest2) = (r2, false) :: rest2 := rfl
        rw [hkf, hhead, hafter, tr_cons_false]
        rcases hk : keyedFlagged (some false) (k2 + 1) rest2 with _ | ⟨⟨k4, r4⟩, T⟩
        · rw [hk] at hih
          rw [← hih]
          rfl
        · have hk4 : k2 + 1 ≤ k4 :=
            keyedFlagged_key_le rest2 _ _ (k4, r4) (hk ▸ List.mem_cons_self _ _)
          have hne : k4 ≠ k2 := by omega
          rw [gck_cons_cons]
          rw [hk] at hih
          rw [hih]
          rcases htr : trueRuns rest2 with _ | ⟨g, gs⟩ <;> simp [hne]
      · have hkf : keyedFlagged (some true) k2 ((r2, true) :: rest2) =
            (k2, r2) :: keyedFlagged (some true) k2 rest2 := by
          simp [keyedFlagged, nextKey]
        have hih := ih hlen2 r2 k2
        have hhead : trueRunHead ((r2, true) :: rest2) = r2 :: trueRunHead rest2 := rfl
        have hafter : afterTrueRun ((r2, true) :: rest2) = afterTrueRun rest2 := rfl
        rw [hkf, gck_cons_cons, hih, hhead, hafter]
        simp

theorem groupConsecKeys_keyedFlagged {α : Type} :
    ∀ (n : ℕ) (l : List (α × Bool)), l.length ≤ n → ∀ (prev : Option Bool) (k : ℕ),
      groupConsecKeys (keyedFlagged prev k l) = trueRuns l := by
  intro n
  induction n with
  | zero =>
      intro l hl prev k
      obtain rfl := List.eq_nil_of_length_eq_zero (Nat.le_zero.mp hl)
      rw [tr_nil]
      rfl
  | succ n ihn =>
      intro l hl prev k
      rcases l with _ | ⟨⟨r, f⟩, rest⟩
      · rw [tr_nil]
        rfl
      · have hrest : rest.length ≤ n := Nat.succ_le_succ_iff.mp hl
        rcases f with _ | _
        · have hkf : keyedFlagged prev k ((r, false) :: rest) =
              keyedFlagged (some false) (nextKey prev false k) rest := by
            simp [keyedFlagged]
          rw [hkf, tr_cons_false]
          exact ihn rest hrest _ _
        · have hkf : keyedFlagged prev k ((r, true) :: rest) =
              (nextKey prev true k, r) :: keyedFlagged (some true) (nextKey prev true k) rest := by
            simp [keyedFlagged]
          rw [hkf, tr_cons_true]
          exact groupConsecKeys_run_case n ihn rest hrest r _

/-- C2 fixture: five rows at times 0..4 (only the times matter for the
expected events). -/
def exFlagRows : List BlkRow :=
  [{ dummyRow with time := 0 }, { dummyRow with time := 1 }, { dummyRow with time := 2 },
   { dummyRow with time := 3 }, { dummyRow with time := 4 }]

end HaloCME

/-- C2: the event aggregation of `detect_halo_cme` produces exactly one
candidate event per maximal run of consecutive true flags — `start_time` the
first flagged row's time, `end_time` the last flagged row's time, `duration`
the number of rows of the run — and retains a candidate iff its duration
reaches `min_duration`.  On flags [F,T,T,F,T] at times [0,1,2,3,4] with
`min_duration = 1` this yields exactly {start 1, end 2, duration 2} and
{start 4, end 4, duration 1}, in that order. -/
theorem c2_event_aggregation :
    (∀ (rows : List HaloCME.BlkRow) (flags : List Bool) (minDur : ℕ),
      HaloCME.aggregateEvents rows flags minDur =
        (HaloCME.trueRuns (rows.zip flags)).filterMap
          (fun g => if minDur ≤ g.length then some (HaloCME.mkEvent g) else none)) ∧
    (HaloCME.aggregateEvents HaloCME.exFlagRows [false, true, true, false, true] 1).map
        (fun e => (e.start_time, e.end_time, e.duration)) =
      [(1, 2, 2), (4, 4, 1)] := by
  constructor
  · intro rows flags minDur
    unfold HaloCME.aggregateEvents HaloCME.shiftNeKeys
    dsimp only
    rw [HaloCME.zip_filter_keyedFlagged (rows.zip flags) none 0]
    rw [HaloCME.groupConsecKeys_keyedFlagged (rows.zip flags).length (rows.zip flags) le_rfl]
  · with_unfolding_all decide

namespace HaloCME

/-- A cell that is present and not a sentinel code. -/
def cellPresentNoFill (v : Option ℚ) : Bool :=
  match v with
  | some q => decide (q ∉ fill_values)
  | none => false

/-- A present cell within [0, hi]. -/
def cellInRange (v : Option ℚ) (hi : ℚ) : Bool :=
  match v with
  | some q => decide (0 ≤ q) && decide (q ≤ hi)
  | none => false

/-- A (value, uncertainty) pair that the uncertainty filter leaves alone. -/
def uncertSmall (p u : Option ℚ) : Bool :=
  match p, u with
  | some pv, some uv => decide (uv ≤ 1 / 2 * |pv|)
  | _, _ => false

/-- A sample on which every per-row stage of `clean_swis_data` acts as the
identity: all 18 cells present and sentinel-free, the clipped fields within
their ranges, the kinematic mask satisfied, and the three uncertainty pairs
within tolerance. -/
def sampleFixed (s : Sample) : Bool :=
  cellPresentNoFill s.proton_density && cellPresentNoFill s.numden_p_uncer &&
  cellPresentNoFill s.proton_bulk_speed && cellPresentNoFill s.bulk_p_uncer &&
  cellPresentNoFill s.proton_xvelocity && cellPresentNoFill s.proton_yvelocity &&
  cellPresentNoFill s.proton_zvelocity && cellPresentNoFill s.proton_thermal &&
  cellPresentNoFill s.thermal_p_uncer && cellPresentNoFill s.alpha_density &&
  cellPresentNoFill s.numden_a_uncer && cellPresentNoFill s.alpha_bulk_speed &&
  cellPresentNoFill s.bulk_a_uncer && cellPresentNoFill s.alpha_thermal &&
  cellPresentNoFill s.thermal_a_uncer && cellPresentNoFill s.spacecraft_xpos &&
  cellPresentNoFill s.spacecraft_ypos && cellPresentNoFill s.spacecraft_zpos &&
  cellInRange s.proton_density 100 && cellInRange s.alpha_density 100 &&
  cellInRange s.proton_thermal 100000 && cellInRange s.alpha_thermal 100000 &&
  kinematicMask s &&
  uncertSmall s.proton_density s.numden_p_uncer &&
  uncertSmall s.proton_bulk_speed s.bulk_p_uncer &&
  uncertSmall s.alpha_density s.numden_a_uncer

theorem replaceFill_of_clean {v : Option ℚ} (h : cellPresentNoFill v = true) :
    replaceFill v = v := by
  rcases v with _ | q
  · rfl
  · simp only [cellPresentNoFill, decide_eq_true_eq] at h
    simp [replaceFill, h]

theorem cellPresent_exists {v : Option ℚ} (h : cellPresentNoFill v = true) :
    ∃ q, v = some q := by
  rcases v with _ | q
  · exact absurd h (by simp [cellPresentNoFill])
  · exact ⟨q, rfl⟩

theorem clipQ_id {hi q : ℚ} (h0 : 0 ≤ q) (h1 : q ≤ hi) : clipQ 0 hi q = q := by
  unfold clipQ
  rw [max_eq_left h0, min_eq_left h1]

theorem clip_map_of_range {v : Option ℚ} {hi : ℚ} (h : cellInRange v hi = true) :
    v.map (clipQ 0 hi) = v := by
  rcases v with _ | q
  · rfl
  · simp only [cellInRange, Bool.and_eq_true, decide_eq_true_eq] at h
    simp [clipQ_id h.1 h.2]

theorem uncertApply_id {p u : Option ℚ} (h : uncertSmall p u = true) :
    uncertApply p u = p := by
  rcases p with _ | pv
  · rfl
  · rcases u with _ | uv
    · rfl
    · simp only [uncertSmall, decide_eq_true_eq] at h
      show (if (1 : ℚ) / 2 * |pv| < uv then none else some pv) = some pv
      rw [if_neg (not_lt_of_le h)]

theorem isortByTime_eq_self :
    ∀ df : List Sample, df.Pairwise (fun x y => x.time ≤ y.time) → isortByTime df = df := by
  intro df
  induction df with
  | nil => intro _; rfl
  | cons a l ih =>
      intro h
      rcases List.pairwise_cons.mp h with ⟨ha, hl⟩
      rw [isortByTime, ih hl]
      rcases l with _ | ⟨b, bt⟩
      · rfl
      · rw [insertS, if_pos (ha b (List.mem_cons_self b bt))]

theorem dedupAux_eq_self :
    ∀ (df : List Sample) (seen : List ℚ), (∀ x ∈ df, x.time ∉ seen) →
      df.Pairwise (fun a b => a.time ≠ b.time) → dedupAux seen df = df := by
  intro df
  induction df with
  | nil => intro _ _ _; rfl
  | cons s rest ih =>
      intro seen hseen hpw
      rcases List.pairwise_cons.mp hpw with ⟨hs, hrest⟩
      rw [dedupAux, if_neg (hseen s (List.mem_cons_self s rest))]
      rw [ih (s.time :: seen) ?_ hrest]
      intro x hx
      rw [List.mem_cons]
      rintro (h1 | h1)
      · exact hs x hx h1.symm
      · exact hseen x (List.mem_cons_of_mem s hx) h1

theorem spatialZip_id :
    ∀ (l : List Sample) (prev : Option Sample),
      (∀ p ∈ l.zip (prev :: l.map some), spatialKeep p.2 p.1 = true) →
      ((l.zip (prev :: l.map some)).filter (fun p => spatialKeep p.2 p.1)).map
          (fun p => p.1) = l := by
  intro l
  induction l with
  | nil => intro _ _; rfl
  | cons a l ih =>
      intro prev h
      rw [List.map_cons, List.zip_cons_cons, List.filter_cons] at *
      rw [if_pos (h (a, prev) (List.mem_cons_self _ _))]
      rw [List.map_cons]
      rw [ih (some a) (fun p hp => h p (List.mem_cons_of_mem _ hp))]

end HaloCME

namespace HaloCME

theorem sanitizeSample_id {s : Sample} (hs : sampleFixed s = true) : sanitizeSample s = s := by
  simp only [sampleFixed, Bool.and_eq_true, and_assoc] at hs
  obtain ⟨h1, h2, h3, h4, h5, h6, h7, h8, h9, h10, h11, h12, h13, h14, h15, h16, h17, h18,
    _, _, _, _, _, _, _, _⟩ := hs
  unfold sanitizeSample
  rw [replaceFill_of_clean h1, replaceFill_of_clean h2, replaceFill_of_clean h3,
    replaceFill_of_clean h4, replaceFill_of_clean h5, replaceFill_of_clean h6,
    replaceFill_of_clean h7, replaceFill_of_clean h8, replaceFill_of_clean h9,
    replaceFill_of_clean h10, replaceFill_of_clean h11, replaceFill_of_clean h12,
    replaceFill_of_clean h13, replaceFill_of_clean h14, replaceFill_of_clean h15,
    replaceFill_of_clean h16, replaceFill_of_clean h17, replaceFill_of_clean h18]

theorem rangeSample_id {s : Sample} (hs : sampleFixed s = true) : rangeSample s = s := by
  simp only [sampleFixed, Bool.and_eq_true, and_assoc] at hs
  obtain ⟨_, _, _, _, _, _, _, _, _, _, _, _, _, _, _, _, _, _,
    hr1, hr2, hr3, hr4, _, _, _, _⟩ := hs
  unfold rangeSample
  rw [clip_map_of_range hr1, clip_map_of_range hr2, clip_map_of_range hr3,
    clip_map_of_range hr4]

theorem uncertSample_id {s : Sample} (hs : sampleFixed s = true) : uncertSample s = s := by
  simp only [sampleFixed, Bool.and_eq_true, and_assoc] at hs
  obtain ⟨_, _, _, _, _, _, _, _, _, _, _, _, _, _, _, _, _, _,
    _, _, _, _, _, hu1, hu2, hu3⟩ := hs
  unfold uncertSample
  rw [uncertApply_id hu1, uncertApply_id hu2, uncertApply_id hu3]

theorem sampleFixed_kinematic {s : Sample} (hs : sampleFixed s = true) :
    kinematicMask s = true := by
  simp only [sampleFixed, Bool.and_eq_true, and_assoc] at hs
  obtain ⟨_, _, _, _, _, _, _, _, _, _, _, _, _, _, _, _, _, _,
    _, _, _, _, hk, _, _, _⟩ := hs
  exact hk

theorem temporalInterp_id {df : List Sample} (h : ∀ s ∈ df, sampleFixed s = true) :
    temporalInterp df = df := by
  unfold temporalInterp
  have hcongr : ∀ p ∈ df.enum,
      ({ time := p.2.time
         proton_density := interpField df (fun s => s.proton_density) p.1 p.2
         numden_p_uncer := interpField df (fun s => s.numden_p_uncer) p.1 p.2
         proton_bulk_speed := interpField df (fun s => s.proton_bulk_speed) p.1 p.2
         bulk_p_uncer := interpField df (fun s => s.bulk_p_uncer) p.1 p.2
         proton_xvelocity := interpField df (fun s => s.proton_xvelocity) p.1 p.2
         proton_yvelocity := interpField df (fun s => s.proton_yvelocity) p.1 p.2
         proton_zvelocity := interpField df (fun s => s.proton_zvelocity) p.1 p.2
         proton_thermal := interpField df (fun s => s.proton_thermal) p.1 p.2
         thermal_p_uncer := interpField df (fun s => s.thermal_p_uncer) p.1 p.2
         alpha_density := interpField df (fun s => s.alpha_density) p.1 p.2
         numden_a_uncer := interpField df (fun s => s.numden_a_uncer) p.1 p.2
         alpha_bulk_speed := interpField df (fun s => s.alpha_bulk_speed) p.1 p.2
         bulk_a_uncer := interpField df (fun s => s.bulk_a_uncer) p.1 p.2
         alpha_thermal := interpField df (fun s => s.alpha_thermal) p.1 p.2
         thermal_a_uncer := interpField df (fun s => s.thermal_a_uncer) p.1 p.2
         spacecraft_xpos := interpField df (fun s => s.spacecraft_xpos) p.1 p.2
         spacecraft_ypos := interpField df (fun s => s.spacecraft_ypos) p.1 p.2
         spacecraft_zpos := interpField df (fun s => s.spacecraft_zpos) p.1 p.2 } : Sample) =
        p.2 := by
    intro p hp
    obtain ⟨i, x⟩ := p
    have hx : x ∈ df := by
      have hg := List.mk_mem_enum_iff_getElem?.mp hp
      exact List.getElem?_mem hg
    have hsf := h x hx
    simp only [sampleFixed, Bool.and_eq_true, and_assoc] at hsf
    obtain ⟨h1, h2, h3, h4, h5, h6, h7, h8, h9, h10, h11, h12, h13, h14, h15, h16, h17, h18,
      _, _, _, _, _, _, _, _⟩ := hsf
    have hf : ∀ (f : Sample → Option ℚ) (q : ℚ), f x = some q →
        interpField df f i x = f x := by
      intro f q hq
      unfold interpField
      rw [hq]
      rfl
    obtain ⟨q1, hq1⟩ := cellPresent_exists h1
    obtain ⟨q2, hq2⟩ := cellPresent_exists h2
    obtain ⟨q3, hq3⟩ := cellPresent_exists h3
    obtain ⟨q4, hq4⟩ := cellPresent_exists h4
    obtain ⟨q5, hq5⟩ := cellPresent_exists h5
    obtain ⟨q6, hq6⟩ := cellPresent_exists h6
    obtain ⟨q7, hq7⟩ := cellPresent_exists h7
    obtain ⟨q8, hq8⟩ := cellPresent_exists h8
    obtain ⟨q9, hq9⟩ := cellPresent_exists h9
    obtain ⟨q10, hq10⟩ := cellPresent_exists h10
    obtain ⟨q11, hq11⟩ := cellPresent_exists h11
    obtain ⟨q12, hq12⟩ := cellPresent_exists h12
    obtain ⟨q13, hq13⟩ := cellPresent_exists h13
    obtain ⟨q14, hq14⟩ := cellPresent_exists h14
    obtain ⟨q15, hq15⟩ := cellPresent_exists h15
    obtain ⟨q16, hq16⟩ := cellPresent_exists h16
    obtain ⟨q17, hq17⟩ := cellPresent_exists h17
    obtain ⟨q18, hq18⟩ := cellPresent_exists h18
    rw [hf _ _ hq1, hf _ _ hq2, hf _ _ hq3, hf _ _ hq4, hf _ _ hq5, hf _ _ hq6,
      hf _ _ hq7, hf _ _ hq8, hf _ _ hq9, hf _ _ hq10, hf _ _ hq11, hf _ _ hq12,
      hf _ _ hq13, hf _ _ hq14, hf _ _ hq15, hf _ _ hq16, hf _ _ hq17, hf _ _ hq18]
  rw [List.map_congr_left hcongr, List.enum_map_snd]

/-- C8 fixture: an 8-sample series, benign in every column except a six-cell
missing run in `proton_density` (indices 1..6) between valid cells. -/
def gapSample (t : ℚ) (pd : Option ℚ) : Sample :=
  { time := t, proton_density := pd, numden_p_uncer := none, proton_bulk_speed := some 0,
    bulk_p_uncer := none, proton_xvelocity := some 0, proton_yvelocity := some 0,
    proton_zvelocity := some 0, proton_thermal := some 1, thermal_p_uncer := none,
    alpha_density := some 1, numden_a_uncer := none, alpha_bulk_speed := some 1,
    bulk_a_uncer := none, alpha_thermal := some 1, thermal_a_uncer := none,
    spacecraft_xpos := some 0, spacecraft_ypos := some 0, spacecraft_zpos := some 0 }

def exGapSeries : List Sample :=
  [gapSample 0 (some 0), gapSample 1 none, gapSample 2 none, gapSample 3 none,
   gapSample 4 none, gapSample 5 none, gapSample 6 none, gapSample 7 (some 70)]

/-- C8 fixture: a fully clean two-sample series. -/
def fixSample (t x : ℚ) : Sample :=
  { time := t, proton_density := some 1, numden_p_uncer := some 0, proton_bulk_speed := some 0,
    bulk_p_uncer := some 0, proton_xvelocity := some 0, proton_yvelocity := some 0,
    proton_zvelocity := some 0, proton_thermal := some 1, thermal_p_uncer := some 0,
    alpha_density := some 1, numden_a_uncer := some 0, alpha_bulk_speed := some 1,
    bulk_a_uncer := some 0, alpha_thermal := some 1, thermal_a_uncer := some 0,
    spacecraft_xpos := some x, spacecraft_ypos := some 0, spacecraft_zpos := some 0 }

def exFixSeries : List Sample := [fixSample 0 0, fixSample 1 1]

end HaloCME

/-- C8: counterexample.  The cleaning pipeline is not idempotent: on an
8-sample series whose `proton_density` column has an interior run of six
missing cells, the first run fills only the first five (interpolation
`limit=5`), and re-running the pipeline on that output fills the
sixth cell too, so the cleaned series is not a fixed point. -/
theorem c8_idempotence_counterexample :
    HaloCME.clean_swis_data (HaloCME.clean_swis_data HaloCME.exGapSeries) ≠
      HaloCME.clean_swis_data HaloCME.exGapSeries := by
  with_unfolding_all decide

/-- C8: amended.  The pipeline is not idempotent in general (see the
counterexample: a second run fills gap cells beyond the first run's 5-sample
interpolation limit).  What does hold: any series with strictly increasing
timestamps whose samples all have every field present with no sentinel-coded
value, clipped fields inside their physical ranges, kinematically consistent
velocities, uncertainties at most half the value's magnitude, and position
jumps below 1000 is a fixed point of the full pipeline. -/
theorem c8_idempotence_amended :
    ∀ df : List HaloCME.Sample,
      df.Pairwise (fun a b => a.time < b.time) →
      (∀ s ∈ df, HaloCME.sampleFixed s = true) →
      (∀ p ∈ df.zip (none :: df.map some), HaloCME.spatialKeep p.2 p.1 = true) →
      HaloCME.clean_swis_data df = df := by
  intro df hsort hfix hspat
  have hsan : HaloCME.sanitizeStage df = df := by
    unfold HaloCME.sanitizeStage
    rw [List.map_congr_left (fun s hs => HaloCME.sanitizeSample_id (hfix s hs)), List.map_id']
  have hrange : HaloCME.rangeStage df = df := by
    unfold HaloCME.rangeStage
    rw [List.map_congr_left (fun s hs => HaloCME.rangeSample_id (hfix s hs)), List.map_id']
  have hkin : HaloCME.kinematicStage df = df := by
    unfold HaloCME.kinematicStage
    exact List.filter_eq_self.mpr (fun s hs => HaloCME.sampleFixed_kinematic (hfix s hs))
  have hsd : HaloCME.sortDedup df = df := by
    unfold HaloCME.sortDedup HaloCME.dedupByTime
    rw [HaloCME.isortByTime_eq_self df (hsort.imp le_of_lt)]
    exact HaloCME.dedupAux_eq_self df [] (by simp) (hsort.imp ne_of_lt)
  have huncert : HaloCME.uncertStage df = df := by
    unfold HaloCME.uncertStage
    rw [List.map_congr_left (fun s hs => HaloCME.uncertSample_id (hfix s hs)), List.map_id']
  have hspatial : HaloCME.spatialStage df = df := HaloCME.spatialZip_id df none hspat
  have hinterp : HaloCME.temporalInterp df = df := HaloCME.temporalInterp_id hfix
  unfold HaloCME.clean_swis_data
  rw [hsan, hrange, hkin, hsd, huncert, hspatial, hinterp]

/-- C8 witness: a concrete two-sample series meeting all the fixed-point
conditions, on which the pipeline acts as the identity. -/
theorem c8_idempotence_amended_witness :
    HaloCME.clean_swis_data HaloCME.exFixSeries = HaloCME.exFixSeries :=
  c8_idempotence_amended HaloCME.exFixSeries
    (by with_unfolding_all decide)
    (by with_unfolding_all decide)
    (by with_unfolding_all decide)
